import Mathlib

/-!
Verification of the analytics-lib pipeline core: the stage-descriptor model
(`src/core/decorators.py`) and the pipeline validator / execution-graph builder
(`src/core/orchestrator.py`).

Descriptors are mutable, doubly-linked Python objects; we embed them as a store
(a list of components indexed by id) with explicit state passing. The opaque
caller payload carried in `config` is modelled as `String`.
-/

/-- The `component_type` strings of the source: "source", "transform", "sink". -/
inductive CompType where
  | source
  | transform
  | sink
deriving DecidableEq, Repr

/-- The string that `component_type` holds in the Python object; used verbatim
in error messages. -/
def tname : CompType → String
  | .source => "source"
  | .transform => "transform"
  | .sink => "sink"

/-- Opaque caller payload (never inspected by the core). -/
abbrev Value := String

/-- A caller-supplied work function: `func(*args, **kwargs)`. -/
structure Func where
  fname : String
  run : List Value → List (String × Value) → Value

/-- The component's `config` field: `None`, the return value of the work
function (source/sink factories), or the raw call record
`{"args": args, "kwargs": kwargs}` (transform factory). -/
inductive ConfigVal where
  | cnone
  | ret (v : Value)
  | argsRecord (args : List Value) (kwargs : List (String × Value))
deriving DecidableEq, Repr

/-- `PipelineComponent` (decorators.py). The `SourceComponent` / `SinkComponent`
subclasses add a `source_type` / `sink_type` tag; we flatten the hierarchy into
one structure whose `subtype` is that tag (`none` for transforms). `next` and
`previous` are ids into the store, `none` for Python `None`. -/
structure Component where
  name : String
  component_type : CompType
  run : List Value → List (String × Value) → Value
  config : ConfigVal
  subtype : Option String
  next : Option Nat
  previous : Option Nat

instance : Inhabited Component :=
  ⟨⟨"", .source, fun _ _ => "", .cnone, none, none, none⟩⟩

/-- The heap of descriptor objects, indexed by id. -/
abbrev Store := List Component

/-- Dereference an id (total, with a default object for out-of-range ids). -/
def getComp (s : Store) (i : Nat) : Component :=
  s.getD i default

/-- `__rshift__` (`a >> b`): `self.next = other; other.previous = self;
return other`. -/
def rshift (s : Store) (a b : Nat) : Store × Nat :=
  let s1 := s.set a { getComp s a with next := some b }
  let s2 := s1.set b { getComp s1 b with previous := some a }
  (s2, b)

/-- `__rrshift__` (`other >> self` fallback): `other.next = self;
self.previous = other; return self`. -/
def rrshift (s : Store) (i other : Nat) : Store × Nat :=
  let s1 := s.set other { getComp s other with next := some i }
  let s2 := s1.set i { getComp s1 i with previous := some other }
  (s2, i)

/-- The `while current.previous: current = current.previous` loop of
`get_first_component`, fuelled (the Python loop diverges on a `previous`
cycle; every theorem below supplies a chain, where the fuel suffices). -/
def walkFirst (s : Store) : Nat → Nat → Nat
  | 0, i => i
  | fuel + 1, i =>
    match (getComp s i).previous with
    | none => i
    | some j => walkFirst s fuel j

/-- `PipelineComponent.get_first_component`. -/
def get_first_component (s : Store) (i : Nat) : Nat :=
  walkFirst s s.length i

/-- The orchestrator's `validate_rules` dict. -/
def validate_rules : CompType → List CompType
  | .source => [.transform, .sink]
  | .transform => [.transform, .sink]
  | .sink => []

/-- The f-string of `_validate_connection`'s ValueError. -/
def seqMsg (p c : CompType) : String :=
  "Invalid pipeline sequence: " ++ tname p ++ " cannot be followed by " ++ tname c

/-- `PipelineOrchestrator._validate_connection`: `some msg` models the raised
ValueError, `none` a silent return. -/
def validate_connection (prev current : Component) : Option String :=
  if current.component_type ∈ validate_rules prev.component_type then none
  else some (seqMsg prev.component_type current.component_type)

/-- One graph entry: the dict literal of `build_execution_graph`, as an ordered
association list mirroring the Python dict's keys. -/
inductive EntryVal where
  | typeVal (t : CompType)
  | nextVal (n : Option String)
  | configVal (c : ConfigVal)
  | componentVal (i : Nat)
  | subtypeVal (st : Option String)
deriving DecidableEq, Repr

/-- The dict `build_execution_graph` stores under `component.name`. -/
def graph_entry (s : Store) (i : Nat) : List (String × EntryVal) :=
  [("type", EntryVal.typeVal (getComp s i).component_type),
   ("next", EntryVal.nextVal ((getComp s i).next.map fun j => (getComp s j).name)),
   ("config", EntryVal.configVal (getComp s i).config),
   ("component", EntryVal.componentVal i)]

/-- `PipelineOrchestrator` instance state: `self.components` and
`self.execution_graph` (a Python dict, kept as an insertion-ordered
association list). -/
structure PipelineOrchestrator where
  components : List Nat
  execution_graph : List (String × List (String × EntryVal))
deriving DecidableEq, Repr

/-- `d[k] = v` on a Python dict: overwrite in place, else append. -/
def dictInsert (g : List (String × α)) (k : String) (v : α) : List (String × α) :=
  if g.any (fun p => p.1 == k) then
    g.map fun p => if p.1 == k then (k, v) else p
  else g ++ [(k, v)]

/-- The `while current:` loop of `validate_pipeline`: validate the connection
into `current` (raising stops the walk), append `current` to the components
list, follow `next`. Fuelled; every theorem supplies a chain, whose length is
bounded by the store size, so the fuel-0 branch is never reached there. -/
def validateLoop (s : Store) : Nat → Nat → List Nat → List Nat × Option String
  | 0, _, comps => (comps, none)
  | fuel + 1, current, comps =>
    let err :=
      match (getComp s current).previous with
      | none => none
      | some p => validate_connection (getComp s p) (getComp s current)
    match err with
    | some e => (comps, some e)
    | none =>
      let comps1 := comps ++ [current]
      match (getComp s current).next with
      | none => (comps1, none)
      | some nxt => validateLoop s fuel nxt comps1

/-- `PipelineOrchestrator.validate_pipeline`. A raised ValueError is modelled
as `some msg`; the orchestrator is returned with whatever `self.components`
held when the call ended (Python appends in place, so entries appended before
a raise survive it). `components[-1]` is modelled by `getLastD` (the list is
nonempty whenever that line is reached on a chain). -/
def validate_pipeline (s : Store) (o : PipelineOrchestrator) (entry : Nat) :
    PipelineOrchestrator × Option String :=
  let first := get_first_component s entry
  if (getComp s first).component_type ≠ CompType.source then
    (o, some "Pipeline must start with a source component")
  else
    let r := validateLoop s s.length first o.components
    match r.2 with
    | some e => ({ o with components := r.1 }, some e)
    | none =>
      if (getComp s (r.1.getLastD 0)).component_type ≠ CompType.sink then
        ({ o with components := r.1 }, some "Pipeline must end with a sink component")
      else
        ({ o with components := r.1 }, none)

/-- `PipelineOrchestrator.build_execution_graph`: fold the components into the
instance's `execution_graph` dict and return it. -/
def build_execution_graph (s : Store) (o : PipelineOrchestrator) :
    PipelineOrchestrator × List (String × List (String × EntryVal)) :=
  let g := o.components.foldl
    (fun g i => dictInsert g (getComp s i).name (graph_entry s i))
    o.execution_graph
  ({ o with execution_graph := g }, g)

/-- The `source(source_type)` decorator: the wrapper calls the work function
once and stores its return value as `config`. The second result lists the
argument tuples the work function was invoked with during construction. -/
def source (source_type : String) (func : Func)
    (args : List Value) (kwargs : List (String × Value)) :
    Component × List (List Value × List (String × Value)) :=
  let config := func.run args kwargs
  (⟨func.fname, .source, func.run, .ret config, some source_type, none, none⟩,
   [(args, kwargs)])

/-- The `transform` decorator: `config` is the raw call record and the work
function is not invoked. -/
def transform (func : Func)
    (args : List Value) (kwargs : List (String × Value)) :
    Component × List (List Value × List (String × Value)) :=
  (⟨func.fname, .transform, func.run, .argsRecord args kwargs, none, none, none⟩,
   [])

/-- The `sink(sink_type)` decorator: like `source`, the work function runs
once at construction and its return value becomes `config`. -/
def sink (sink_type : String) (func : Func)
    (args : List Value) (kwargs : List (String × Value)) :
    Component × List (List Value × List (String × Value)) :=
  let config := func.run args kwargs
  (⟨func.fname, .sink, func.run, .ret config, some sink_type, none, none⟩,
   [(args, kwargs)])

/-! ## Chain well-formedness -/

/-- Consecutive elements of `l` are joined by matching `next`/`previous`
pointers in `s`. -/
def linked (s : Store) : List Nat → Bool
  | [] => true
  | [_] => true
  | i :: j :: rest =>
    ((getComp s i).next == some j) && ((getComp s j).previous == some i) &&
      linked s (j :: rest)

/-- `l` is the id sequence of a well-formed doubly-linked chain living in `s`:
nonempty, duplicate-free, ids in range, consecutively linked, head has no
predecessor and tail no successor. -/
def isChain (s : Store) (l : List Nat) : Prop :=
  l ≠ [] ∧ l.Nodup ∧ (∀ i ∈ l, i < s.length) ∧ linked s l = true ∧
    (getComp s (l.headD 0)).previous = none ∧
    (getComp s (l.getLastD 0)).next = none

instance (s : Store) (l : List Nat) : Decidable (isChain s l) := by
  unfold isChain
  infer_instance

/-- Every consecutive pair of `l` passes `_validate_connection`. -/
def legalPairsB (s : Store) : List Nat → Bool
  | [] => true
  | [_] => true
  | i :: j :: rest =>
    (validate_connection (getComp s i) (getComp s j)).isNone &&
      legalPairsB s (j :: rest)

/-- The connection check the validate loop performs on entering `current`. -/
def okPrevB (s : Store) (current : Nat) : Bool :=
  match (getComp s current).previous with
  | none => true
  | some p => (validate_connection (getComp s p) (getComp s current)).isNone

/-- Mutual `next`/`prev` consistency over the whole store: `a.next == b` iff
`b.previous == a`, for all in-range ids. -/
def consistent (s : Store) : Prop :=
  ∀ i, i < s.length → ∀ j, j < s.length →
    ((getComp s i).next = some j ↔ (getComp s j).previous = some i)

instance (s : Store) : Decidable (consistent s) := by
  unfold consistent
  infer_instance

/-! ## Store lemmas -/

theorem getComp_set_self (s : Store) (i : Nat) (v : Component)
    (h : i < s.length) : getComp (s.set i v) i = v := by
  simp [getComp, List.getD_eq_getD_get?, List.getElem?_set_eq_of_lt _ h]

theorem getComp_set_ne (s : Store) (i j : Nat) (v : Component)
    (h : i ≠ j) : getComp (s.set i v) j = getComp s j := by
  simp [getComp, List.getD_eq_getD_get?, List.getElem?_set_ne h]

theorem headD_append_cons (pre : List Nat) (x : Nat) (rest : List Nat) (d : Nat) :
    (pre ++ x :: rest).headD d = pre.headD x := by
  cases pre <;> rfl

/-! ## Walking to the head -/

theorem linked_prev_at (s : Store) :
    ∀ (l : List Nat), linked s l = true → ∀ k, k + 1 < l.length →
      (getComp s (l.getD (k + 1) 0)).previous = some (l.getD k 0) := by
  intro l
  induction l with
  | nil => intro _ k hk; simp at hk
  | cons i t ih =>
    intro hl k hk
    cases t with
    | nil => simp at hk
    | cons j rest =>
      simp only [linked, Bool.and_eq_true, beq_iff_eq] at hl
      cases k with
      | zero => simpa using hl.1.2
      | succ k' =>
        have := ih hl.2 k' (by simpa using hk)
        simpa using this

theorem walkFirst_at (s : Store) (l : List Nat) (hc : isChain s l) :
    ∀ k, k < l.length → ∀ fuel, k ≤ fuel →
      walkFirst s fuel (l.getD k 0) = l.headD 0 := by
  obtain ⟨hne, -, -, hlink, hprev, -⟩ := hc
  intro k
  induction k with
  | zero =>
    intro _ fuel _
    have hhead : l.getD 0 0 = l.headD 0 := by
      cases l with
      | nil => exact absurd rfl hne
      | cons a t => rfl
    cases fuel with
    | zero => simpa [walkFirst] using hhead
    | succ f => rw [hhead, walkFirst, hprev]
  | succ k' ih =>
    intro hk fuel hf
    cases fuel with
    | zero => omega
    | succ f =>
      rw [walkFirst, linked_prev_at s l hlink k' hk]
      exact ih (by omega) f (by omega)

theorem chain_length_le (s : Store) (l : List Nat) (hc : isChain s l) :
    l.length ≤ s.length := by
  obtain ⟨-, hnd, hbd, -, -, -⟩ := hc
  have hsub : l.toFinset ⊆ Finset.range s.length := by
    intro i hi
    simp only [List.mem_toFinset] at hi
    simpa using hbd i hi
  have := Finset.card_le_card hsub
  rwa [List.toFinset_card_of_nodup hnd, Finset.card_range] at this

theorem get_first_eq_head (s : Store) (l : List Nat) (entry : Nat)
    (hc : isChain s l) (he : entry ∈ l) :
    get_first_component s entry = l.headD 0 := by
  obtain ⟨k, hk, hek⟩ := List.mem_iff_getElem.mp he
  have hlen := chain_length_le s l hc
  have : l.getD k 0 = entry := by rw [List.getD_eq_getElem _ _ hk, hek]
  rw [get_first_component, ← this]
  exact walkFirst_at s l hc k hk s.length (by omega)

/-! ## The validate loop -/

theorem getLastD_cons_cons (x y : Nat) (t : List Nat) (d : Nat) :
    (x :: y :: t).getLastD d = (y :: t).getLastD d := by
  simp [List.getLastD_cons]

theorem validateLoop_ok (s : Store) :
    ∀ (rest : List Nat) (current : Nat) (acc : List Nat) (fuel : Nat),
      linked s (current :: rest) = true →
      (getComp s ((current :: rest).getLastD 0)).next = none →
      okPrevB s current = true →
      legalPairsB s (current :: rest) = true →
      rest.length < fuel →
      validateLoop s fuel current acc = (acc ++ current :: rest, none) := by
  intro rest
  induction rest with
  | nil =>
    intro current acc fuel hlink hlast hok _ hfuel
    cases fuel with
    | zero => omega
    | succ f =>
      have hlast' : (getComp s current).next = none := by simpa using hlast
      rw [validateLoop]
      unfold okPrevB at hok
      cases hp : (getComp s current).previous with
      | none => simp [hp, hlast']
      | some p =>
        rw [hp] at hok
        simp [hp, Option.isNone_iff_eq_none.mp hok, hlast']
  | cons b rest' ih =>
    intro current acc fuel hlink hlast hok hleg hfuel
    cases fuel with
    | zero => simp at hfuel
    | succ f =>
      simp only [linked, Bool.and_eq_true, beq_iff_eq] at hlink
      obtain ⟨⟨hnext, hbprev⟩, hlink'⟩ := hlink
      simp only [legalPairsB, Bool.and_eq_true] at hleg
      obtain ⟨hconn, hleg'⟩ := hleg
      rw [validateLoop]
      unfold okPrevB at hok
      have hstep :
          validateLoop s f b (acc ++ [current]) =
            ((acc ++ [current]) ++ b :: rest', none) := by
        apply ih b (acc ++ [current]) f hlink'
        · rw [← getLastD_cons_cons current b rest' 0]
          exact hlast
        · unfold okPrevB
          rw [hbprev]
          exact hconn
        · exact hleg'
        · simpa using Nat.lt_of_succ_lt_succ hfuel
      cases hp : (getComp s current).previous with
      | none =>
        simp [hp, hnext, hstep]
      | some p =>
        rw [hp] at hok
        simp [hp, Option.isNone_iff_eq_none.mp hok, hnext, hstep]

theorem cons_headD_tail (l : List Nat) (hne : l ≠ []) (d : Nat) :
    l.headD d :: l.tail = l := by
  cases l with
  | nil => exact absurd rfl hne
  | cons a t => rfl

theorem getLastD_concat' (l : List Nat) (a d : Nat) :
    (l ++ [a]).getLastD d = a := by
  induction l generalizing d with
  | nil => rfl
  | cons x t ih =>
    rw [List.cons_append, List.getLastD_cons]
    exact ih x

theorem validateLoop_fail (s : Store) :
    ∀ (mid : List Nat) (current c : Nat) (post acc : List Nat)
      (fuel : Nat) (m : String),
      linked s (current :: (mid ++ c :: post)) = true →
      okPrevB s current = true →
      legalPairsB s (current :: mid) = true →
      validate_connection (getComp s ((current :: mid).getLastD 0)) (getComp s c) =
        some m →
      mid.length + 1 < fuel →
      validateLoop s fuel current acc = (acc ++ current :: mid, some m) := by
  intro mid
  induction mid with
  | nil =>
    intro current c post acc fuel m hlink hok _ hconn hfuel
    cases fuel with
    | zero => omega
    | succ f =>
      cases f with
      | zero => omega
      | succ f' =>
        simp only [List.nil_append, linked, Bool.and_eq_true, beq_iff_eq] at hlink
        obtain ⟨⟨hnext, hcprev⟩, -⟩ := hlink
        have hc1 : ([current] : List Nat).getLastD 0 = current := rfl
        rw [hc1] at hconn
        rw [validateLoop]
        unfold okPrevB at hok
        have hinner :
            validateLoop s (f' + 1) c (acc ++ [current]) =
              (acc ++ [current], some m) := by
          rw [validateLoop, hcprev]
          simp [hconn]
        cases hp : (getComp s current).previous with
        | none => simp [hp, hnext, hinner]
        | some q =>
          rw [hp] at hok
          simp [hp, Option.isNone_iff_eq_none.mp hok, hnext, hinner]
  | cons y mid' ih =>
    intro current c post acc fuel m hlink hok hleg hconn hfuel
    cases fuel with
    | zero => omega
    | succ f =>
      simp only [List.cons_append, linked, Bool.and_eq_true, beq_iff_eq] at hlink
      obtain ⟨⟨hnext, hyprev⟩, hlink'⟩ := hlink
      simp only [legalPairsB, Bool.and_eq_true] at hleg
      obtain ⟨hconnxy, hleg'⟩ := hleg
      rw [getLastD_cons_cons] at hconn
      have hstep :
          validateLoop s f y (acc ++ [current]) =
            ((acc ++ [current]) ++ y :: mid', some m) := by
        apply ih y c post (acc ++ [current]) f m hlink'
        · unfold okPrevB
          rw [hyprev]
          exact hconnxy
        · exact hleg'
        · exact hconn
        · simp at hfuel ⊢
          omega
      have hres : (acc ++ [current]) ++ y :: mid' = acc ++ current :: y :: mid' := by
        simp
      rw [validateLoop]
      unfold okPrevB at hok
      cases hp : (getComp s current).previous with
      | none => simp [hp, hnext, hstep, hres]
      | some q =>
        rw [hp] at hok
        simp [hp, Option.isNone_iff_eq_none.mp hok, hnext, hstep, hres]

theorem validateLoop_fail_split (s : Store) (pre : List Nat) (a b : Nat)
    (post acc : List Nat) (fuel : Nat) (m : String)
    (hlink : linked s (pre ++ a :: b :: post) = true)
    (hok : okPrevB s ((pre ++ a :: b :: post).headD 0) = true)
    (hleg : legalPairsB s (pre ++ [a]) = true)
    (hconn : validate_connection (getComp s a) (getComp s b) = some m)
    (hfuel : pre.length + 1 < fuel) :
    validateLoop s fuel ((pre ++ a :: b :: post).headD 0) acc =
      (acc ++ pre ++ [a], some m) := by
  have hne : pre ++ [a] ≠ [] := by simp
  have hsplit : pre ++ [a] = (pre ++ [a]).headD 0 :: (pre ++ [a]).tail :=
    (cons_headD_tail _ hne 0).symm
  have hhead : (pre ++ a :: b :: post).headD 0 = (pre ++ [a]).headD 0 := by
    rw [headD_append_cons, headD_append_cons]
  have hrearr : pre ++ a :: b :: post = (pre ++ [a]) ++ b :: post := by
    simp
  have hlast : ((pre ++ [a]).headD 0 :: (pre ++ [a]).tail).getLastD 0 = a := by
    rw [← hsplit, getLastD_concat']
  have hlink2 :
      linked s ((pre ++ [a]).headD 0 :: ((pre ++ [a]).tail ++ b :: post)) = true := by
    have : (pre ++ [a]).headD 0 :: ((pre ++ [a]).tail ++ b :: post) =
        (pre ++ [a]) ++ b :: post := by
      rw [← List.cons_append, ← hsplit]
    rw [this, ← hrearr]
    exact hlink
  have hleg2 : legalPairsB s ((pre ++ [a]).headD 0 :: (pre ++ [a]).tail) = true := by
    rwa [← hsplit]
  have hfuel2 : (pre ++ [a]).tail.length + 1 < fuel := by
    have : (pre ++ [a]).tail.length + 1 = (pre ++ [a]).length := by
      cases pre <;> simp
    simp at this ⊢
    omega
  have := validateLoop_fail s (pre ++ [a]).tail ((pre ++ [a]).headD 0) b post acc
    fuel m hlink2 (by rw [← hhead]; exact hok) hleg2 (by rw [hlast]; exact hconn)
    hfuel2
  rw [hhead]
  rw [this, ← hsplit]
  simp

theorem legalPairs_split (s : Store) :
    ∀ l, legalPairsB s l = false →
      ∃ pre a b post m, l = pre ++ a :: b :: post ∧
        legalPairsB s (pre ++ [a]) = true ∧
        validate_connection (getComp s a) (getComp s b) = some m := by
  intro l
  induction l with
  | nil => intro h; simp [legalPairsB] at h
  | cons i t ih =>
    intro h
    cases t with
    | nil => simp [legalPairsB] at h
    | cons j rest =>
      simp only [legalPairsB, Bool.and_eq_false_iff] at h
      cases hconn0 : (validate_connection (getComp s i) (getComp s j)) with
      | some m =>
        exact ⟨[], i, j, rest, m, by simp, by simp [legalPairsB], hconn0⟩
      | none =>
        have hrest : legalPairsB s (j :: rest) = false := by
          rcases h with h1 | h1
          · rw [hconn0] at h1
            simp at h1
          · exact h1
        obtain ⟨pre, a, b, post, m, heq, hleg, hc2⟩ := ih hrest
        refine ⟨i :: pre, a, b, post, m, by simp [heq], ?_, hc2⟩
        cases pre with
        | nil =>
          have ha : a = j := by
            have := congrArg (fun x => x.headD 0) heq
            simpa using this.symm
          subst ha
          simp [legalPairsB, hconn0]
        | cons x pre' =>
          have hx : x = j := by
            have := congrArg (fun x => x.headD 0) heq
            simpa using this.symm
          subst hx
          simp only [List.cons_append, legalPairsB, Bool.and_eq_true]
          refine ⟨?_, by simpa using hleg⟩
          rw [hconn0]
          rfl

theorem getLastD_irrel (l : List Nat) (hne : l ≠ []) (d1 d2 : Nat) :
    l.getLastD d1 = l.getLastD d2 := by
  cases l with
  | nil => exact absurd rfl hne
  | cons a t => rfl

theorem getLastD_append_right (xs l : List Nat) (hne : l ≠ []) :
    ∀ d, (xs ++ l).getLastD d = l.getLastD d := by
  induction xs with
  | nil => intro d; rfl
  | cons x t ihx =>
    intro d
    rw [List.cons_append, List.getLastD_cons, ihx x]
    exact getLastD_irrel l hne x d

/-! ## Evaluating `validate_pipeline` on chains -/

theorem validate_eval_notsrc (s : Store) (l : List Nat) (entry : Nat)
    (o : PipelineOrchestrator) (hc : isChain s l) (he : entry ∈ l)
    (hsrc : (getComp s (l.headD 0)).component_type ≠ CompType.source) :
    validate_pipeline s o entry =
      (o, some "Pipeline must start with a source component") := by
  unfold validate_pipeline
  rw [get_first_eq_head s l entry hc he]
  rw [if_pos hsrc]

theorem loop_on_chain (s : Store) (l : List Nat) (acc : List Nat)
    (hne : l ≠ []) (hnd : l.Nodup) (hbd : ∀ i ∈ l, i < s.length)
    (hlink : linked s l = true)
    (hprev : (getComp s (l.headD 0)).previous = none)
    (hlast : (getComp s (l.getLastD 0)).next = none)
    (hleg : legalPairsB s l = true) :
    validateLoop s s.length (l.headD 0) acc = (acc ++ l, none) := by
  have hcons := cons_headD_tail l hne 0
  have := validateLoop_ok s l.tail (l.headD 0) acc s.length
    (by rw [hcons]; exact hlink)
    (by rw [hcons]; exact hlast)
    (by unfold okPrevB; rw [hprev])
    (by rw [hcons]; exact hleg)
    (by
      have h1 : l.tail.length + 1 = l.length := by
        cases l with
        | nil => exact absurd rfl hne
        | cons a t => simp
      have h2 := chain_length_le s l ⟨hne, hnd, hbd, hlink, hprev, hlast⟩
      omega)
  rw [hcons] at this
  exact this

theorem validate_success (s : Store) (l : List Nat) (entry : Nat)
    (o : PipelineOrchestrator) (hc : isChain s l) (he : entry ∈ l)
    (hsrc : (getComp s (l.headD 0)).component_type = CompType.source)
    (hleg : legalPairsB s l = true)
    (hsink : (getComp s (l.getLastD 0)).component_type = CompType.sink) :
    validate_pipeline s o entry =
      ({ o with components := o.components ++ l }, none) := by
  obtain ⟨hne, hnd, hbd, hlink, hprev, hlast⟩ := hc
  have hloop := loop_on_chain s l o.components hne hnd hbd hlink hprev hlast hleg
  have hl2 : (o.components ++ l).getLastD 0 = l.getLastD 0 :=
    getLastD_append_right o.components l hne 0
  unfold validate_pipeline
  rw [get_first_eq_head s l entry ⟨hne, hnd, hbd, hlink, hprev, hlast⟩ he]
  rw [if_neg (fun h => h hsrc)]
  simp only [hloop]
  rw [hl2]
  rw [if_neg (fun h => h hsink)]

theorem validate_eval_nosink (s : Store) (l : List Nat) (entry : Nat)
    (o : PipelineOrchestrator) (hc : isChain s l) (he : entry ∈ l)
    (hsrc : (getComp s (l.headD 0)).component_type = CompType.source)
    (hleg : legalPairsB s l = true)
    (hsink : (getComp s (l.getLastD 0)).component_type ≠ CompType.sink) :
    validate_pipeline s o entry =
      ({ o with components := o.components ++ l },
        some "Pipeline must end with a sink component") := by
  obtain ⟨hne, hnd, hbd, hlink, hprev, hlast⟩ := hc
  have hloop := loop_on_chain s l o.components hne hnd hbd hlink hprev hlast hleg
  have hl2 : (o.components ++ l).getLastD 0 = l.getLastD 0 :=
    getLastD_append_right o.components l hne 0
  unfold validate_pipeline
  rw [get_first_eq_head s l entry ⟨hne, hnd, hbd, hlink, hprev, hlast⟩ he]
  rw [if_neg (fun h => h hsrc)]
  simp only [hloop]
  rw [hl2]
  rw [if_pos hsink]

theorem validate_eval_conn (s : Store) (pre : List Nat) (a b : Nat)
    (post : List Nat) (entry : Nat) (o : PipelineOrchestrator) (m : String)
    (hc : isChain s (pre ++ a :: b :: post)) (he : entry ∈ pre ++ a :: b :: post)
    (hsrc : (getComp s ((pre ++ a :: b :: post).headD 0)).component_type =
      CompType.source)
    (hleg : legalPairsB s (pre ++ [a]) = true)
    (hconn : validate_connection (getComp s a) (getComp s b) = some m) :
    validate_pipeline s o entry =
      ({ o with components := o.components ++ pre ++ [a] }, some m) := by
  obtain ⟨hne, hnd, hbd, hlink, hprev, hlast⟩ := hc
  have hlen := chain_length_le s (pre ++ a :: b :: post)
    ⟨hne, hnd, hbd, hlink, hprev, hlast⟩
  have hloop := validateLoop_fail_split s pre a b post o.components s.length m
    hlink (by unfold okPrevB; rw [hprev]) hleg hconn
    (by simp at hlen ⊢; omega)
  unfold validate_pipeline
  rw [get_first_eq_head s (pre ++ a :: b :: post) entry
    ⟨hne, hnd, hbd, hlink, hprev, hlast⟩ he]
  rw [if_neg (fun h => h hsrc)]
  simp only [hloop]

/-! ## Legality of well-shaped chains -/

theorem legalKinds_shape (s : Store) :
    ∀ (mid : List Nat) (a z : Nat),
      ((getComp s a).component_type = CompType.source ∨
        (getComp s a).component_type = CompType.transform) →
      (∀ i ∈ mid, (getComp s i).component_type = CompType.transform) →
      (getComp s z).component_type = CompType.sink →
      legalPairsB s (a :: (mid ++ [z])) = true := by
  intro mid
  induction mid with
  | nil =>
    intro a z ha hmid hz
    simp only [List.nil_append, legalPairsB, Bool.and_eq_true]
    refine ⟨?_, trivial⟩
    unfold validate_connection
    rcases ha with h | h <;> simp [h, hz, validate_rules]
  | cons x mid' ih =>
    intro a z ha hmid hz
    have hx : (getComp s x).component_type = CompType.transform := hmid x (by simp)
    simp only [List.cons_append, legalPairsB, Bool.and_eq_true]
    refine ⟨?_, ih x z (Or.inr hx) (fun i hi => hmid i (by simp [hi])) hz⟩
    unfold validate_connection
    rcases ha with h | h <;> simp [h, hx, validate_rules]

theorem legalPairsB_suffix (s : Store) :
    ∀ (xs ys : List Nat), legalPairsB s (xs ++ ys) = true →
      legalPairsB s ys = true := by
  intro xs
  induction xs with
  | nil => intro ys h; simpa using h
  | cons x xs' ih =>
    intro ys h
    cases xs' with
    | nil =>
      cases ys with
      | nil => rfl
      | cons y t =>
        simp only [List.nil_append, List.cons_append, legalPairsB,
          Bool.and_eq_true] at h
        exact h.2
    | cons w xs'' =>
      apply ih
      simp only [List.cons_append, legalPairsB, Bool.and_eq_true] at h
      exact h.2

theorem sink_conn_some (s : Store) (a b : Nat)
    (ha : (getComp s a).component_type = CompType.sink) :
    validate_connection (getComp s a) (getComp s b) =
      some (seqMsg CompType.sink (getComp s b).component_type) := by
  unfold validate_connection
  rw [ha]
  simp [validate_rules]

theorem seqMsg_sink (c : CompType) :
    seqMsg CompType.sink c =
      "Invalid pipeline sequence: sink cannot be followed by " ++ tname c := by
  cases c <;> rfl

/-- `validate_pipeline` never touches `self.execution_graph`. -/
theorem validate_graph_unchanged (s : Store) (o : PipelineOrchestrator)
    (entry : Nat) :
    (validate_pipeline s o entry).1.execution_graph = o.execution_graph := by
  simp only [validate_pipeline]
  split
  · rfl
  · split
    · rfl
    · split <;> rfl

/-- On a chain, `validate_pipeline` (from a fresh orchestrator) raises iff the
head is not a source, some adjacent pair breaks `validate_rules`, or the tail
is not a sink; and it leaves the execution graph empty. -/
theorem validate_error_iff (s : Store) (l : List Nat) (entry : Nat)
    (hc : isChain s l) (he : entry ∈ l) :
    ((validate_pipeline s ⟨[], []⟩ entry).2 ≠ none ↔
      ((getComp s (l.headD 0)).component_type ≠ CompType.source ∨
        legalPairsB s l = false ∨
        (getComp s (l.getLastD 0)).component_type ≠ CompType.sink)) ∧
    (validate_pipeline s ⟨[], []⟩ entry).1.execution_graph = [] := by
  refine ⟨?_, validate_graph_unchanged s ⟨[], []⟩ entry⟩
  by_cases hsrc : (getComp s (l.headD 0)).component_type = CompType.source
  · by_cases hlegt : legalPairsB s l = true
    · by_cases hsink : (getComp s (l.getLastD 0)).component_type = CompType.sink
      · rw [validate_success s l entry ⟨[], []⟩ hc he hsrc hlegt hsink]
        constructor
        · intro h
          exact absurd rfl h
        · rintro (h | h | h)
          · exact absurd hsrc h
          · rw [hlegt] at h
            exact Bool.noConfusion h
          · exact absurd hsink h
      · rw [validate_eval_nosink s l entry ⟨[], []⟩ hc he hsrc hlegt hsink]
        constructor
        · intro _
          exact Or.inr (Or.inr hsink)
        · intro _
          simp
    · have hlegf : legalPairsB s l = false := by
        cases h : legalPairsB s l
        · rfl
        · exact absurd h hlegt
      obtain ⟨pre, a, b, post, m, heq, hpleg, hconn⟩ := legalPairs_split s l hlegf
      rw [heq] at hc he hsrc
      rw [validate_eval_conn s pre a b post entry ⟨[], []⟩ m hc he hsrc hpleg hconn]
      constructor
      · intro _
        exact Or.inr (Or.inl hlegf)
      · intro _
        simp
  · rw [validate_eval_notsrc s l entry ⟨[], []⟩ hc he hsrc]
    constructor
    · intro _
      exact Or.inl hsrc
    · intro _
      simp

/-! ## Graph-building lemmas -/

theorem lookup_isSome_iff (g : List (String × α)) (k : String) :
    ((g.lookup k).isSome = true) ↔ k ∈ g.map Prod.fst := by
  induction g with
  | nil => simp
  | cons p t ih =>
    obtain ⟨k1, v1⟩ := p
    by_cases hk : k = k1
    · subst hk
      simp [List.lookup]
    · have hb : (k == k1) = false := by simpa using hk
      simp [List.lookup, hb, ih, hk]

theorem dictInsert_mem_keys (g : List (String × α)) (k k' : String) (v : α)
    (h : k' ∈ g.map Prod.fst ∨ k' = k) :
    k' ∈ (dictInsert g k v).map Prod.fst := by
  unfold dictInsert
  by_cases hany : g.any (fun p => p.1 == k) = true
  · rw [if_pos hany]
    rcases h with h | h
    · obtain ⟨p, hp, hpk⟩ := List.mem_map.mp h
      apply List.mem_map.mpr
      refine ⟨if p.1 == k then (k, v) else p, List.mem_map_of_mem _ hp, ?_⟩
      by_cases hpk2 : p.1 = k
      · simp [hpk2, ← hpk]
      · have hb : (p.1 == k) = false := by simpa using hpk2
        rw [hb]
        simpa using hpk
    · subst h
      obtain ⟨p, hp, hpk⟩ := List.any_eq_true.mp hany
      apply List.mem_map.mpr
      refine ⟨if p.1 == k' then (k', v) else p, List.mem_map_of_mem _ hp, ?_⟩
      simp [hpk]
  · rw [if_neg hany]
    rcases h with h | h
    · simp only [List.map_append, List.mem_append]
      exact Or.inl h
    · simp [h]

theorem fold_graph_keys (s : Store) :
    ∀ (comps : List Nat) (g0 : List (String × List (String × EntryVal))) (i : Nat),
      (i ∈ comps ∨ (getComp s i).name ∈ g0.map Prod.fst) →
      (getComp s i).name ∈
        (comps.foldl (fun g j => dictInsert g (getComp s j).name (graph_entry s j))
          g0).map Prod.fst := by
  intro comps
  induction comps with
  | nil =>
    intro g0 i h
    rcases h with h | h
    · simp at h
    · simpa using h
  | cons a t ih =>
    intro g0 i h
    simp only [List.foldl_cons]
    apply ih
    rcases h with h | h
    · rcases List.mem_cons.mp h with h2 | h2
      · subst h2
        exact Or.inr (dictInsert_mem_keys _ _ _ _ (Or.inr rfl))
      · exact Or.inl h2
    · exact Or.inr (dictInsert_mem_keys _ _ _ _ (Or.inl h))

theorem dictInsert_notmem (g : List (String × α)) (k : String) (v : α)
    (h : k ∉ g.map Prod.fst) : dictInsert g k v = g ++ [(k, v)] := by
  unfold dictInsert
  rw [if_neg]
  intro hany
  obtain ⟨p, hp, hpk⟩ := List.any_eq_true.mp hany
  exact h (List.mem_map.mpr ⟨p, hp, by simpa using hpk⟩)

theorem fold_graph_map (s : Store) :
    ∀ (comps : List Nat) (g0 : List (String × List (String × EntryVal))),
      (∀ i ∈ comps, (getComp s i).name ∉ g0.map Prod.fst) →
      (comps.map fun i => (getComp s i).name).Nodup →
      comps.foldl (fun g j => dictInsert g (getComp s j).name (graph_entry s j)) g0 =
        g0 ++ comps.map fun i => ((getComp s i).name, graph_entry s i) := by
  intro comps
  induction comps with
  | nil => intro g0 _ _; simp
  | cons a t ih =>
    intro g0 hdis hnd
    simp only [List.foldl_cons]
    rw [dictInsert_notmem _ _ _ (hdis a (by simp))]
    rw [ih (g0 ++ [((getComp s a).name, graph_entry s a)])]
    · simp
    · intro i hi
      simp only [List.map_append, List.mem_append, List.map_cons]
      rintro (h | h)
      · exact hdis i (by simp [hi]) h
      · simp only [List.map_cons, List.nodup_cons] at hnd
        have heq2 : (getComp s i).name = (getComp s a).name := by simpa using h
        have : (getComp s a).name ∈ t.map fun j => (getComp s j).name :=
          List.mem_map.mpr ⟨i, hi, heq2⟩
        exact hnd.1 this
    · simp only [List.map_cons, List.nodup_cons] at hnd
      exact hnd.2

/-! ## Linking lemmas -/

theorem rshift_length (s : Store) (a b : Nat) :
    ((rshift s a b).1).length = s.length := by
  simp [rshift]

theorem rshift_getComp_left (s : Store) (a b : Nat) (ha : a < s.length)
    (hab : a ≠ b) :
    getComp (rshift s a b).1 a = { getComp s a with next := some b } := by
  unfold rshift
  rw [getComp_set_ne _ b a _ (fun h => hab h.symm), getComp_set_self _ a _ ha]

theorem rshift_getComp_right (s : Store) (a b : Nat) (hb : b < s.length)
    (hab : a ≠ b) :
    getComp (rshift s a b).1 b = { getComp s b with previous := some a } := by
  unfold rshift
  rw [getComp_set_self _ b _ (by simpa using hb), getComp_set_ne _ a b _ hab]

theorem rshift_getComp_other (s : Store) (a b : Nat) (j : Nat)
    (hja : j ≠ a) (hjb : j ≠ b) :
    getComp (rshift s a b).1 j = getComp s j := by
  unfold rshift
  rw [getComp_set_ne _ b j _ (fun h => hjb h.symm),
    getComp_set_ne _ a j _ (fun h => hja h.symm)]

theorem consistent_rshift (s : Store) (a b : Nat)
    (hcons : consistent s) (ha : a < s.length) (hb : b < s.length) (hab : a ≠ b)
    (hanext : (getComp s a).next = none)
    (hbprev : (getComp s b).previous = none) :
    consistent (rshift s a b).1 := by
  have ga := rshift_getComp_left s a b ha hab
  have gb := rshift_getComp_right s a b hb hab
  intro i hi j hj
  rw [rshift_length] at hi hj
  by_cases hia : i = a
  · by_cases hjb : j = b
    · rw [hia, hjb, ga, gb]
      simp
    · rw [hia, ga]
      constructor
      · intro h
        have hbj : b = j := Option.some.inj h
        exact absurd hbj.symm hjb
      · intro h
        by_cases hja : j = a
        · rw [hja, ga] at h
          have h2 : (getComp s a).previous = some a := h
          have := (hcons a ha a ha).mpr h2
          rw [hanext] at this
          exact Option.noConfusion this
        · rw [rshift_getComp_other s a b j hja hjb] at h
          have := (hcons a ha j hj).mpr h
          rw [hanext] at this
          exact Option.noConfusion this
  · by_cases hib : i = b
    · by_cases hjb : j = b
      · rw [hib, hjb, gb]
        constructor
        · intro h
          have h2 : (getComp s b).next = some b := h
          have := (hcons b hb b hb).mp h2
          rw [hbprev] at this
          exact Option.noConfusion this
        · intro h
          have h2 : a = b := Option.some.inj h
          exact absurd h2 hab
      · by_cases hja : j = a
        · rw [hib, hja, gb, ga]
          exact hcons b hb a ha
        · rw [hib, gb, rshift_getComp_other s a b j hja hjb]
          exact hcons b hb j hj
    · by_cases hjb : j = b
      · rw [hjb, rshift_getComp_other s a b i hia hib, gb]
        constructor
        · intro h
          have := (hcons i hi b hb).mp h
          rw [hbprev] at this
          exact Option.noConfusion this
        · intro h
          have h2 : a = i := Option.some.inj h
          exact absurd h2.symm hia
      · by_cases hja : j = a
        · rw [hja, rshift_getComp_other s a b i hia hib, ga]
          exact hcons i hi a ha
        · rw [rshift_getComp_other s a b i hia hib,
            rshift_getComp_other s a b j hja hjb]
          exact hcons i hi j hj

/-! ## Concrete stores for witnesses and counterexamples -/

/-- Builder for concrete test components (the work function is irrelevant to
the validator and graph builder). -/
def mkC (n : String) (t : CompType) (st : Option String)
    (nx pv : Option Nat) : Component :=
  ⟨n, t, fun _ _ => "", ConfigVal.cnone, st, nx, pv⟩

/-- A linked two-stage chain: source `s` → sink `k`. -/
def chainSS : Store :=
  [mkC "s" CompType.source (some "kafka") (some 1) none,
   mkC "k" CompType.sink (some "bq") none (some 0)]

/-- A linked three-stage chain: source `read` → transform `clean` → sink
`write` (the demo pipeline of `main.py`). -/
def chain3 : Store :=
  [mkC "read" CompType.source (some "kafka") (some 1) none,
   mkC "clean" CompType.transform none (some 2) (some 0),
   mkC "write" CompType.sink (some "bigquery") none (some 1)]

/-- A linked chain transform `t` → sink `k` → transform `u` (sink followed by
a further stage, but the head is not a source). -/
def chainTKT : Store :=
  [mkC "t" CompType.transform none (some 1) none,
   mkC "k" CompType.sink (some "bq") (some 2) (some 0),
   mkC "u" CompType.transform none none (some 1)]

/-- A linked chain source `a` → sink `b` → transform `cc` (first violation is
the sink's successor). -/
def chainSKT : Store :=
  [mkC "a" CompType.source (some "kafka") (some 1) none,
   mkC "b" CompType.sink (some "bq") (some 2) (some 0),
   mkC "cc" CompType.transform none none (some 1)]

/-- Three not-yet-linked components. -/
def freshABC : Store :=
  [mkC "a" CompType.source (some "kafka") none none,
   mkC "b" CompType.transform none none none,
   mkC "cc" CompType.sink (some "bq") none none]

/-! ## Claims -/

/-- C10: the transform factory stores the raw call record `{args, kwargs}` as
`config` and never invokes the work function at construction, while the
source and sink factories invoke the work function exactly once at
construction and store its return value as `config`. -/
theorem c10_factory_configs (func : Func) (st : String)
    (args : List Value) (kwargs : List (String × Value)) :
    (transform func args kwargs).1.config = ConfigVal.argsRecord args kwargs ∧
    (transform func args kwargs).2 = [] ∧
    (source st func args kwargs).2 = [(args, kwargs)] ∧
    (source st func args kwargs).1.config = ConfigVal.ret (func.run args kwargs) ∧
    (sink st func args kwargs).2 = [(args, kwargs)] ∧
    (sink st func args kwargs).1.config = ConfigVal.ret (func.run args kwargs) :=
  ⟨rfl, rfl, rfl, rfl, rfl, rfl⟩

/-- C7: `link(a, b)` (the `>>` operator) sets `a.next = b` and `b.prev = a`,
mutates nothing else, and returns `b`; chaining the returned descriptor with
`c` therefore yields `a → b → c`. -/
theorem c7_link_fields (s : Store) (a b c : Nat)
    (ha : a < s.length) (hb : b < s.length) (hcl : c < s.length)
    (hab : a ≠ b) (hac : a ≠ c) (hbc : b ≠ c) :
    (rshift s a b).2 = b ∧
    getComp (rshift s a b).1 a = { getComp s a with next := some b } ∧
    getComp (rshift s a b).1 b = { getComp s b with previous := some a } ∧
    (∀ j, j ≠ a → j ≠ b → getComp (rshift s a b).1 j = getComp s j) ∧
    (getComp (rshift (rshift s a b).1 (rshift s a b).2 c).1 a).next = some b ∧
    (getComp (rshift (rshift s a b).1 (rshift s a b).2 c).1 b).previous = some a ∧
    (getComp (rshift (rshift s a b).1 (rshift s a b).2 c).1 b).next = some c ∧
    (getComp (rshift (rshift s a b).1 (rshift s a b).2 c).1 c).previous = some b := by
  refine ⟨rfl, rshift_getComp_left s a b ha hab,
    rshift_getComp_right s a b hb hab,
    fun j hja hjb => rshift_getComp_other s a b j hja hjb, ?_, ?_, ?_, ?_⟩
  · rw [show (rshift s a b).2 = b from rfl]
    rw [rshift_getComp_other (rshift s a b).1 b c a hab hac]
    rw [rshift_getComp_left s a b ha hab]
  · rw [show (rshift s a b).2 = b from rfl]
    rw [rshift_getComp_left (rshift s a b).1 b c
      (by rw [rshift_length]; exact hb) hbc]
    rw [rshift_getComp_right s a b hb hab]
  · rw [show (rshift s a b).2 = b from rfl]
    rw [rshift_getComp_left (rshift s a b).1 b c
      (by rw [rshift_length]; exact hb) hbc]
  · rw [show (rshift s a b).2 = b from rfl]
    rw [rshift_getComp_right (rshift s a b).1 b c
      (by rw [rshift_length]; exact hcl) hbc]

theorem c7_link_fields_witness :
    (0 : Nat) < freshABC.length ∧ (1 : Nat) < freshABC.length ∧
    (2 : Nat) < freshABC.length ∧ (0 : Nat) ≠ 1 ∧ (0 : Nat) ≠ 2 ∧ (1 : Nat) ≠ 2 ∧
    ((rshift freshABC 0 1).2 = 1 ∧
      getComp (rshift freshABC 0 1).1 0 =
        { getComp freshABC 0 with next := some 1 } ∧
      getComp (rshift freshABC 0 1).1 1 =
        { getComp freshABC 1 with previous := some 0 } ∧
      (∀ j, j ≠ 0 → j ≠ 1 → getComp (rshift freshABC 0 1).1 j = getComp freshABC j) ∧
      (getComp (rshift (rshift freshABC 0 1).1 (rshift freshABC 0 1).2 2).1 0).next = some 1 ∧
      (getComp (rshift (rshift freshABC 0 1).1 (rshift freshABC 0 1).2 2).1 1).previous = some 0 ∧
      (getComp (rshift (rshift freshABC 0 1).1 (rshift freshABC 0 1).2 2).1 1).next = some 2 ∧
      (getComp (rshift (rshift freshABC 0 1).1 (rshift freshABC 0 1).2 2).1 2).previous = some 1) :=
  ⟨by decide, by decide, by decide, by decide, by decide, by decide,
    c7_link_fields freshABC 0 1 2 (by decide) (by decide) (by decide)
      (by decide) (by decide) (by decide)⟩

/-- C8: on an acyclic chain, `get_first_component` terminates and returns the
unique descriptor with no predecessor, independently of which member of the
chain it starts from. -/
theorem c8_first_component (s : Store) (l : List Nat) (entry : Nat)
    (hc : isChain s l) (he : entry ∈ l) :
    get_first_component s entry = l.headD 0 ∧
    (getComp s (l.headD 0)).previous = none ∧
    (∀ j ∈ l, (getComp s j).previous = none → j = l.headD 0) := by
  refine ⟨get_first_eq_head s l entry hc he, hc.2.2.2.2.1, ?_⟩
  intro j hj hjprev
  obtain ⟨k, hk, hjk⟩ := List.mem_iff_getElem.mp hj
  cases k with
  | zero =>
    cases l with
    | nil => simp at hj
    | cons a t =>
      simp only [List.getElem_cons_zero] at hjk
      rw [← hjk]
      rfl
  | succ k' =>
    have hpa := linked_prev_at s l hc.2.2.2.1 k' hk
    rw [List.getD_eq_getElem _ _ hk, hjk, hjprev] at hpa
    exact Option.noConfusion hpa

theorem c8_first_component_witness :
    isChain chain3 [0, 1, 2] ∧ (1 : Nat) ∈ [0, 1, 2] ∧
    (get_first_component chain3 1 = ([0, 1, 2] : List Nat).headD 0 ∧
      (getComp chain3 (([0, 1, 2] : List Nat).headD 0)).previous = none ∧
      (∀ j ∈ [0, 1, 2], (getComp chain3 j).previous = none →
        j = ([0, 1, 2] : List Nat).headD 0)) :=
  ⟨by decide, by decide, c8_first_component chain3 [0, 1, 2] 1 (by decide) (by decide)⟩

/-- C3: for every chain `Source, T1, …, Tn, Sink` (n ≥ 0), `validate` raises
no error and accumulates exactly n + 2 stages in original chain order. -/
theorem c3_valid_chain (s : Store) (a : Nat) (mid : List Nat) (z : Nat)
    (entry : Nat) (hc : isChain s (a :: (mid ++ [z])))
    (he : entry ∈ a :: (mid ++ [z]))
    (hka : (getComp s a).component_type = CompType.source)
    (hmid : ∀ i ∈ mid, (getComp s i).component_type = CompType.transform)
    (hkz : (getComp s z).component_type = CompType.sink) :
    validate_pipeline s ⟨[], []⟩ entry =
      ({ components := a :: (mid ++ [z]), execution_graph := [] }, none) ∧
    (a :: (mid ++ [z])).length = mid.length + 2 := by
  have hleg := legalKinds_shape s mid a z (Or.inl hka) hmid hkz
  have hlastv : (a :: (mid ++ [z])).getLastD 0 = z := by
    rw [show a :: (mid ++ [z]) = (a :: mid) ++ [z] from by simp, getLastD_concat']
  constructor
  · have hs := validate_success s (a :: (mid ++ [z])) entry ⟨[], []⟩ hc he
      hka hleg (by rw [hlastv]; exact hkz)
    simpa using hs
  · simp

theorem c3_valid_chain_witness :
    isChain chain3 (0 :: ([1] ++ [2])) ∧ (2 : Nat) ∈ 0 :: ([1] ++ [2]) ∧
    (getComp chain3 0).component_type = CompType.source ∧
    (∀ i ∈ [1], (getComp chain3 i).component_type = CompType.transform) ∧
    (getComp chain3 2).component_type = CompType.sink ∧
    (validate_pipeline chain3 ⟨[], []⟩ 2 =
      ({ components := [0, 1, 2], execution_graph := [] }, none) ∧
      (0 :: ([1] ++ [2]) : List Nat).length = [1].length + 2) :=
  ⟨by decide, by decide, by decide, by decide, by decide,
    c3_valid_chain chain3 0 [1] 2 2 (by decide) (by decide) (by decide)
      (by decide) (by decide)⟩

/-- C4: on a chain, `validate` raises a structural error iff the head is not a
source, or some adjacent pair violates `validate_rules`, or the tail is not a
sink; and no partial execution graph is produced by the call. -/
theorem c4_error_conditions (s : Store) (l : List Nat) (entry : Nat)
    (hc : isChain s l) (he : entry ∈ l) :
    ((validate_pipeline s ⟨[], []⟩ entry).2 ≠ none ↔
      ((getComp s (l.headD 0)).component_type ≠ CompType.source ∨
        legalPairsB s l = false ∨
        (getComp s (l.getLastD 0)).component_type ≠ CompType.sink)) ∧
    (validate_pipeline s ⟨[], []⟩ entry).1.execution_graph = [] ∧
    (∀ pre a b post m, l = pre ++ a :: b :: post →
      (getComp s (l.headD 0)).component_type = CompType.source →
      legalPairsB s (pre ++ [a]) = true →
      validate_connection (getComp s a) (getComp s b) = some m →
      (validate_pipeline s ⟨[], []⟩ entry).2 = some m) := by
  obtain ⟨h1, h2⟩ := validate_error_iff s l entry hc he
  refine ⟨h1, h2, ?_⟩
  intro pre a b post m heq hsrc hleg hconn
  rw [heq] at hc he hsrc
  rw [validate_eval_conn s pre a b post entry ⟨[], []⟩ m hc he hsrc hleg hconn]

theorem c4_error_conditions_witness :
    isChain chainSKT [0, 1, 2] ∧ (0 : Nat) ∈ [0, 1, 2] ∧
    (((validate_pipeline chainSKT ⟨[], []⟩ 0).2 ≠ none ↔
      ((getComp chainSKT (([0, 1, 2] : List Nat).headD 0)).component_type ≠
          CompType.source ∨
        legalPairsB chainSKT [0, 1, 2] = false ∨
        (getComp chainSKT (([0, 1, 2] : List Nat).getLastD 0)).component_type ≠
          CompType.sink)) ∧
      (validate_pipeline chainSKT ⟨[], []⟩ 0).1.execution_graph = [] ∧
      (∀ pre a b post m, ([0, 1, 2] : List Nat) = pre ++ a :: b :: post →
        (getComp chainSKT (([0, 1, 2] : List Nat).headD 0)).component_type =
          CompType.source →
        legalPairsB chainSKT (pre ++ [a]) = true →
        validate_connection (getComp chainSKT a) (getComp chainSKT b) = some m →
        (validate_pipeline chainSKT ⟨[], []⟩ 0).2 = some m)) :=
  ⟨by decide, by decide, c4_error_conditions chainSKT [0, 1, 2] 0 (by decide) (by decide)⟩

/-- C1: the claim says each `validate` call accumulates its visited sequence
afresh. In the source, `self.components` is instance state that
`validate_pipeline` appends to, so a second call on the same unmodified chain
leaves the doubled list `[0, 1, 0, 1]` instead of `[0, 1]`: the visited list
is an instance-shared accumulator, contradicting the claim. -/
theorem c1_rerun_accumulates :
    (validate_pipeline chainSS ⟨[], []⟩ 0).1.components = [0, 1] ∧
    (validate_pipeline chainSS ⟨[], []⟩ 0).2 = none ∧
    (validate_pipeline chainSS (validate_pipeline chainSS ⟨[], []⟩ 0).1 0).1.components =
      [0, 1, 0, 1] ∧
    (validate_pipeline chainSS (validate_pipeline chainSS ⟨[], []⟩ 0).1 0).2 = none ∧
    ([0, 1, 0, 1] : List Nat) ≠ [0, 1] := by
  decide

/-- The graph record exactly as §4.2 of the spec words it:
`{kind, subtype, next_name, config, descriptor_ref}`. Stated only to compare
the spec's record shape with the one the code builds. -/
def spec_graph_entry (s : Store) (i : Nat) : List (String × EntryVal) :=
  [("kind", EntryVal.typeVal (getComp s i).component_type),
   ("subtype", EntryVal.subtypeVal (getComp s i).subtype),
   ("next_name", EntryVal.nextVal ((getComp s i).next.map fun j => (getComp s j).name)),
   ("config", EntryVal.configVal (getComp s i).config),
   ("descriptor_ref", EntryVal.componentVal i)]

/-- C2 counterexample: on the validated demo chain, the entry the code stores
for the source `read` (whose subtype tag is "kafka") has exactly the four
fields `type`, `next`, `config`, `component`; no field of it carries the
descriptor's subtype, although the spec's record shape
(`spec_graph_entry`) does. -/
theorem c2_counterexample :
    ((build_execution_graph chain3 (validate_pipeline chain3 ⟨[], []⟩ 2).1).2.lookup
        "read") = some (graph_entry chain3 0) ∧
    (graph_entry chain3 0).map Prod.fst = ["type", "next", "config", "component"] ∧
    ("subtype", EntryVal.subtypeVal (some "kafka")) ∈ spec_graph_entry chain3 0 ∧
    (∀ p ∈ graph_entry chain3 0, p.2 ≠ EntryVal.subtypeVal (some "kafka")) := by
  decide

/-- C2 (amended): for every descriptor `d` of a validated chain (with unique
stage names), `build_execution_graph` inserts an entry keyed by `d.name` whose
record contains exactly the fields `type` (d's kind), `next` (the successor's
name, or none), `config`, and `component` (a reference to `d` itself) — there
is no `subtype` field. -/
theorem c2_graph_record (s : Store) (entry : Nat) (o' : PipelineOrchestrator)
    (hv : validate_pipeline s ⟨[], []⟩ entry = (o', none))
    (hnd : (o'.components.map fun i => (getComp s i).name).Nodup) :
    ∀ i ∈ o'.components,
      ((getComp s i).name, graph_entry s i) ∈ (build_execution_graph s o').2 ∧
      (graph_entry s i).map Prod.fst = ["type", "next", "config", "component"] := by
  have hg : o'.execution_graph = [] := by
    have h2 := validate_graph_unchanged s ⟨[], []⟩ entry
    rw [hv] at h2
    exact h2
  intro i hi
  refine ⟨?_, rfl⟩
  have hfold : (build_execution_graph s o').2 =
      o'.components.foldl
        (fun g j => dictInsert g (getComp s j).name (graph_entry s j))
        o'.execution_graph := rfl
  rw [hfold, hg, fold_graph_map s o'.components [] (by simp) hnd]
  simp only [List.nil_append]
  exact List.mem_map.mpr ⟨i, hi, rfl⟩

theorem c2_graph_record_witness :
    validate_pipeline chain3 ⟨[], []⟩ 2 =
      ({ components := [0, 1, 2], execution_graph := [] }, none) ∧
    (([0, 1, 2] : List Nat).map fun i => (getComp chain3 i).name).Nodup ∧
    (∀ i ∈ ([0, 1, 2] : List Nat),
      ((getComp chain3 i).name, graph_entry chain3 i) ∈
        (build_execution_graph chain3 ⟨[0, 1, 2], []⟩).2 ∧
      (graph_entry chain3 i).map Prod.fst = ["type", "next", "config", "component"]) :=
  ⟨by decide, by decide,
    c2_graph_record chain3 2 ⟨[0, 1, 2], []⟩ (by decide) (by decide)⟩

/-- C5 counterexample: after the link sequence `a >> b` then `a >> c`
(re-linking `a`), `b.previous` still refers to `a` while `a.next` refers to
`c`, so "if `b.prev == a` then `a.next == b`" fails: link-time enforcement
covers only the pair being linked. -/
theorem c5_counterexample :
    (getComp (rshift (rshift freshABC 0 1).1 0 2).1 1).previous = some 0 ∧
    (getComp (rshift (rshift freshABC 0 1).1 0 2).1 0).next = some 2 ∧
    ((some 2 : Option Nat) ≠ some 1) := by
  decide

/-- C5 (amended): a link whose left operand has no successor yet and whose
right operand has no predecessor yet (a forward append, the only way chains
are built) preserves mutual next/prev consistency for all adjacent pairs and
establishes it for the newly linked pair. -/
theorem c5_consistency_preserved (s : Store) (a b : Nat)
    (hcons : consistent s) (ha : a < s.length) (hb : b < s.length) (hab : a ≠ b)
    (hanext : (getComp s a).next = none)
    (hbprev : (getComp s b).previous = none) :
    consistent (rshift s a b).1 ∧
    (getComp (rshift s a b).1 a).next = some b ∧
    (getComp (rshift s a b).1 b).previous = some a := by
  refine ⟨consistent_rshift s a b hcons ha hb hab hanext hbprev, ?_, ?_⟩
  · rw [rshift_getComp_left s a b ha hab]
  · rw [rshift_getComp_right s a b hb hab]

theorem c5_consistency_preserved_witness :
    consistent freshABC ∧ (0 : Nat) < freshABC.length ∧
    (1 : Nat) < freshABC.length ∧ (0 : Nat) ≠ 1 ∧
    (getComp freshABC 0).next = none ∧ (getComp freshABC 1).previous = none ∧
    (consistent (rshift freshABC 0 1).1 ∧
      (getComp (rshift freshABC 0 1).1 0).next = some 1 ∧
      (getComp (rshift freshABC 0 1).1 1).previous = some 0) :=
  ⟨by decide, by decide, by decide, by decide, by decide, by decide,
    c5_consistency_preserved freshABC 0 1 (by decide) (by decide) (by decide)
      (by decide) (by decide) (by decide)⟩

/-- C6 counterexample: `chainTKT` contains a sink (id 1) followed by a further
stage, yet `validate` fails with the missing-source error — not with an
adjacency-violation message naming the sink and its successor's kind — because
the head check runs first. -/
theorem c6_counterexample :
    isChain chainTKT [0, 1, 2] ∧
    (getComp chainTKT 1).component_type = CompType.sink ∧
    (validate_pipeline chainTKT ⟨[], []⟩ 0).2 =
      some "Pipeline must start with a source component" ∧
    (validate_pipeline chainTKT ⟨[], []⟩ 0).2 ≠
      some ("Invalid pipeline sequence: sink cannot be followed by " ++
        tname (getComp chainTKT 2).component_type) := by
  decide

/-- C6 (amended): a chain containing a sink followed by a further descriptor
always fails validation; and when the walk actually reaches that pair first —
the head is a source and every earlier adjacent pair is legal — the error is
the adjacency violation whose message names the sink's kind and the
successor's kind. -/
theorem c6_sink_successor (s : Store) (pre : List Nat) (a b : Nat)
    (post : List Nat) (entry : Nat)
    (hc : isChain s (pre ++ a :: b :: post))
    (he : entry ∈ pre ++ a :: b :: post)
    (ha : (getComp s a).component_type = CompType.sink) :
    (validate_pipeline s ⟨[], []⟩ entry).2 ≠ none ∧
    ((getComp s ((pre ++ a :: b :: post).headD 0)).component_type =
        CompType.source →
      legalPairsB s (pre ++ [a]) = true →
      (validate_pipeline s ⟨[], []⟩ entry).2 =
        some ("Invalid pipeline sequence: sink cannot be followed by " ++
          tname (getComp s b).component_type)) := by
  have hconn := sink_conn_some s a b ha
  constructor
  · have hlegf : legalPairsB s (pre ++ a :: b :: post) = false := by
      cases hlp : legalPairsB s (pre ++ a :: b :: post)
      · rfl
      · have h2 := legalPairsB_suffix s pre (a :: b :: post) hlp
        simp only [legalPairsB, Bool.and_eq_true] at h2
        rw [hconn] at h2
        simp at h2
    exact (validate_error_iff s (pre ++ a :: b :: post) entry hc he).1.mpr
      (Or.inr (Or.inl hlegf))
  · intro hsrc hleg
    rw [validate_eval_conn s pre a b post entry ⟨[], []⟩ _ hc he hsrc hleg hconn]
    rw [seqMsg_sink]

theorem c6_sink_successor_witness :
    isChain chainSKT ([0] ++ 1 :: 2 :: []) ∧ (0 : Nat) ∈ [0] ++ 1 :: 2 :: [] ∧
    (getComp chainSKT 1).component_type = CompType.sink ∧
    ((validate_pipeline chainSKT ⟨[], []⟩ 0).2 ≠ none ∧
      ((getComp chainSKT (([0] ++ 1 :: 2 :: [] : List Nat).headD 0)).component_type =
          CompType.source →
        legalPairsB chainSKT ([0] ++ [1]) = true →
        (validate_pipeline chainSKT ⟨[], []⟩ 0).2 =
          some ("Invalid pipeline sequence: sink cannot be followed by " ++
            tname (getComp chainSKT 2).component_type))) :=
  ⟨by decide, by decide, by decide,
    c6_sink_successor chainSKT [0] 1 2 [] 0 (by decide) (by decide) (by decide)⟩

/-- C9: when `validate` raises an adjacency error partway through the forward
walk, every descriptor visited before the violation stays appended to
`self.components` (no rollback), so a subsequent `build_execution_graph` on
the same orchestrator emits an entry keyed by each such stage's name. -/
theorem c9_partial_survives (s : Store) (pre : List Nat) (a b : Nat)
    (post : List Nat) (entry : Nat) (m : String)
    (hc : isChain s (pre ++ a :: b :: post))
    (he : entry ∈ pre ++ a :: b :: post)
    (hsrc : (getComp s ((pre ++ a :: b :: post).headD 0)).component_type =
      CompType.source)
    (hleg : legalPairsB s (pre ++ [a]) = true)
    (hconn : validate_connection (getComp s a) (getComp s b) = some m) :
    validate_pipeline s ⟨[], []⟩ entry =
      ({ components := pre ++ [a], execution_graph := [] }, some m) ∧
    (∀ i ∈ pre ++ [a],
      ((build_execution_graph s (validate_pipeline s ⟨[], []⟩ entry).1).2.lookup
        (getComp s i).name).isSome = true) := by
  have hv := validate_eval_conn s pre a b post entry ⟨[], []⟩ m hc he hsrc hleg hconn
  have hv' : validate_pipeline s ⟨[], []⟩ entry =
      ({ components := pre ++ [a], execution_graph := [] }, some m) := by
    rw [hv]
    simp
  refine ⟨hv', ?_⟩
  intro i hi
  rw [hv', lookup_isSome_iff]
  exact fold_graph_keys s (pre ++ [a]) [] i (Or.inl hi)

theorem c9_partial_survives_witness :
    isChain chainSKT ([0] ++ 1 :: 2 :: []) ∧ (0 : Nat) ∈ [0] ++ 1 :: 2 :: [] ∧
    (getComp chainSKT (([0] ++ 1 :: 2 :: [] : List Nat).headD 0)).component_type =
      CompType.source ∧
    legalPairsB chainSKT ([0] ++ [1]) = true ∧
    validate_connection (getComp chainSKT 1) (getComp chainSKT 2) =
      some "Invalid pipeline sequence: sink cannot be followed by transform" ∧
    (validate_pipeline chainSKT ⟨[], []⟩ 0 =
      ({ components := [0, 1], execution_graph := [] },
        some "Invalid pipeline sequence: sink cannot be followed by transform") ∧
      (∀ i ∈ ([0] ++ [1] : List Nat),
        ((build_execution_graph chainSKT
          (validate_pipeline chainSKT ⟨[], []⟩ 0).1).2.lookup
            (getComp chainSKT i).name).isSome = true)) :=
  ⟨by decide, by decide, by decide, by decide, by decide,
    c9_partial_survives chainSKT [0] 1 2 [] 0
      "Invalid pipeline sequence: sink cannot be followed by transform"
      (by decide) (by decide) (by decide) (by decide) (by decide)⟩
